import Mathlib

/-!
Verification of the archiver core (`internal/archiver/archiver.go`) against its
natural-language specification.  The Go code is shallowly embedded: pure
functions become Lean functions, effectful calls (filesystem, repository,
worker pools) become explicit environment records of outcomes, and the
side-effecting callbacks (`CompleteItem`, `CompleteBlob`, `Close`, submission
to the `FileSaver`) become an explicit event trace.
-/

set_option autoImplicit false

namespace Restic

/-- Content-addressed blob identifier (`restic.ID`).  Equality is byte
equality; the all-zero value is the null ID.  Modelled as a natural number,
with `0` playing the role of the null ID. -/
abbrev ContentID := Nat

/-- Embeds `restic.ID.IsNull`: the ID is the all-zero value. -/
def idIsNull (id : ContentID) : Bool := id == 0

/-- Go `error` values as they appear in the archiver: a bare errno-style
error, an `*os.PathError` wrapping an errno (its `Err` field), a message
error from `errors.New`/`errors.Errorf`, or a
`github.com/pkg/errors.Wrap` of an inner error with a message. -/
inductive RErr where
  | base (code : Nat)
  | pathError (code : Nat)
  | str (msg : String)
  | wrap (msg : String) (e : RErr)
deriving DecidableEq, Repr

/-- Errno value of `syscall.ELOOP` on Linux. -/
def ELOOP : Nat := 40
/-- Errno value of `syscall.ENXIO` on Linux. -/
def ENXIO : Nat := 6
/-- Errno value of `syscall.ENOENT` on Linux. -/
def ENOENT : Nat := 2
/-- Errno value of `syscall.EACCES` on Linux. -/
def EACCES : Nat := 13

/-- True iff the error is an `*os.PathError` whose `Err` field is one of the
given errno codes (the shape of the test at archiver.go:359). -/
def isPathErrWith (e : RErr) (codes : List Nat) : Bool :=
  match e with
  | .pathError c => codes.contains c
  | _ => false

/-- Go `os.ModeDir` bit. -/
def ModeDir : Nat := 2 ^ 31
/-- Go `os.ModeSymlink` bit. -/
def ModeSymlink : Nat := 2 ^ 27
/-- Go `os.ModeDevice` bit. -/
def ModeDevice : Nat := 2 ^ 26
/-- Go `os.ModeNamedPipe` bit. -/
def ModeNamedPipe : Nat := 2 ^ 25
/-- Go `os.ModeSocket` bit. -/
def ModeSocket : Nat := 2 ^ 24
/-- Go `os.ModeCharDevice` bit. -/
def ModeCharDevice : Nat := 2 ^ 21
/-- Go `os.ModeIrregular` bit. -/
def ModeIrregular : Nat := 2 ^ 19
/-- Go `os.ModeType`: the union of all type bits. -/
def ModeType : Nat :=
  ModeDir ||| ModeSymlink ||| ModeNamedPipe ||| ModeSocket ||| ModeDevice |||
    ModeCharDevice ||| ModeIrregular

/-- The result of a stat call together with the extended-stat fields the
archiver reads (`fs.ExtendedStat` exposes `Size` and `Inode`).  `size` and
`extSize` are Go `int64` values, `mode` is the `os.FileMode` bit set, and
`modTime` is the modification instant in whole nanoseconds (`time.Time.Equal`
compares instants exactly). -/
structure FileInfo where
  name : String := ""
  size : Int := 0
  mode : Nat := 0
  modTime : Int := 0
  extSize : Int := 0
  inode : Nat := 0
deriving DecidableEq, Repr

/-- Go conversion `uint64(x)` applied to an `int64` value: reduction modulo
`2 ^ 64` (two's-complement reinterpretation). -/
def goUInt64 (x : Int) : Nat := (x % ((2 ^ 64 : Nat) : Int)).toNat

/-- Embeds `fs.IsRegularFile`: the mode has no type bit and no char-device bit set.
The `fs` package is not in the source tree; this follows its documented
behaviour `fi.Mode() & (os.ModeType | os.ModeCharDevice) == 0`. -/
def isRegularFile (fi : FileInfo) : Bool :=
  fi.mode &&& (ModeType ||| ModeCharDevice) == 0

/-- Go `fi.IsDir()`: the `os.ModeDir` bit is set. -/
def isDir (fi : FileInfo) : Bool :=
  fi.mode &&& ModeDir != 0

/-- Modelled from the spec: `restic.Node` (package `internal/restic` is not in
the source tree).  Fields follow spec §3: name, type string, modification and
access instants in whole nanoseconds, size (`uint64`), inode, ordered content
list, optional subtree reference. -/
structure Node where
  name : String := ""
  type : String := ""
  modTime : Int := 0
  accessTime : Int := 0
  size : Nat := 0
  inode : Nat := 0
  content : List ContentID := []
  subtree : Option ContentID := none
deriving DecidableEq, Repr

/-- Embeds `ItemStats` (archiver.go:29): statistics about one file or directory. -/
structure ItemStats where
  dataBlobs : Nat := 0
  dataSize : Nat := 0
  treeBlobs : Nat := 0
  treeSize : Nat := 0
deriving DecidableEq, Repr

/-- Embeds `ItemStats.Add` (archiver.go:37). -/
def ItemStats.add (s other : ItemStats) : ItemStats :=
  { dataBlobs := s.dataBlobs + other.dataBlobs
    dataSize := s.dataSize + other.dataSize
    treeBlobs := s.treeBlobs + other.treeBlobs
    treeSize := s.treeSize + other.treeSize }

/-- Modelled from the spec: `restic.Tree` — an ordered sequence of nodes,
sorted strictly ascending by name with unique names (spec §3).  The `restic`
package is not in the source tree. -/
abbrev RTree := List Node

/-- Modelled from the spec: `(*restic.Tree).Find` — the node with the given
name, `nil` when the receiver is `nil` or the name is absent. -/
def treeFind (t : Option RTree) (name : String) : Option Node :=
  match t with
  | none => none
  | some t => t.find? (fun n => n.name == name)

/-- Lexicographic less-or-equal on character lists by code point — for UTF-8
encoded strings this coincides with Go's bytewise string order. -/
def goStrLe : List Char → List Char → Bool
  | [], _ => true
  | _ :: _, [] => false
  | c :: cs, d :: ds =>
    if c.toNat < d.toNat then true
    else if d.toNat < c.toNat then false
    else goStrLe cs ds

/-- Go string comparison `a <= b` (bytewise). -/
def strLeb (a b : String) : Bool := goStrLe a.data b.data

/-- Insert a string into a sorted list, before the first element not smaller. -/
def insertSorted (a : String) : List String → List String
  | [] => [a]
  | b :: rest => if strLeb a b then a :: b :: rest else b :: insertSorted a rest

/-- Embeds Go `sort.Strings`: ascending insertion sort under `strLeb`. -/
def sortStrings : List String → List String
  | [] => []
  | a :: rest => insertSorted a (sortStrings rest)

/-- Insert a node into a name-sorted list (bytewise string order), before the
first node whose name is not smaller. -/
def insertNodeSorted (n : Node) : List Node → List Node
  | [] => [n]
  | m :: rest =>
    if strLeb n.name m.name then n :: m :: rest else m :: insertNodeSorted n rest

/-- Modelled from the spec: `(*restic.Tree).Insert` — names within a tree are
unique, so inserting a node whose name is already present is an error; the
archiver treats that error as fatal. -/
def treeInsert (t : RTree) (n : Node) : Except RErr RTree :=
  if t.any (fun m => m.name == n.name) then .error (.str "node already present")
  else .ok (insertNodeSorted n t)

/-- Embeds `fileChanged` (archiver.go:437): returns `true` if the file's content has
changed since `node` was created.  The comparisons mirror the source line by
line: nil node, type check, `ModTime` equality, the double size check against
both `fi.Size()` and the extended stat's `Size`, and the inode check. -/
def fileChanged (fi : FileInfo) (node : Option Node) : Bool :=
  match node with
  | none => true
  | some node =>
    if node.type ≠ "file" then true
    else if fi.modTime ≠ node.modTime then true
    else if goUInt64 fi.size ≠ node.size ∨ goUInt64 fi.extSize ≠ node.size then true
    else if node.inode ≠ fi.inode then true
    else false

/-- Embeds `Archiver.nodeFromFileInfo` (archiver.go:189): build a node via
`restic.NodeFromFileInfo` and, unless `WithAtime` is set, overwrite the
node's access time with its modification time.  `restic.NodeFromFileInfo`
(not in the source tree) is abstracted as `nf`: it returns a node together
with an optional error, and the node is used even when the error is non-nil,
exactly as in the source; the error is wrapped with `"NodeFromFileInfo"`. -/
def nodeFromFileInfo (withAtime : Bool) (nf : String → FileInfo → Node × Option RErr)
    (filename : String) (fi : FileInfo) : Node × Option RErr :=
  let res := nf filename fi
  let node := if withAtime then res.1 else { res.1 with accessTime := res.1.modTime }
  (node, res.2.map (.wrap "NodeFromFileInfo"))

/-- The two blob kinds (`restic.DataBlob`, `restic.TreeBlob`). -/
inductive BlobKind where
  | data
  | tree
deriving DecidableEq, Repr

/-- Embeds `Archiver.saveTree` (archiver.go:164): marshal the tree to JSON, append a
single newline byte, hand the buffer to the blob saver as one tree blob, and
count one new tree blob of the buffer's length iff the blob was not already
known to the repository.  The JSON encoder (`encoding/json` on `restic.Tree`)
and the blob saver pool are external collaborators, abstracted as `marshal`
and `blobSave`; the second component of the result records every submission
made to the blob store. -/
def saveTree (marshal : RTree → Except RErr (List Nat))
    (blobSave : BlobKind → List Nat → Except RErr (ContentID × Bool))
    (t : RTree) :
    Except RErr (ContentID × ItemStats) × List (BlobKind × List Nat) :=
  match marshal t with
  | .error e => (.error (.wrap "MarshalJSON" e), [])
  | .ok buf =>
    let buf := buf ++ [10]
    match blobSave .tree buf with
    | .error e => (.error e, [(.tree, buf)])
    | .ok (id, known) =>
      let s : ItemStats := if known then {} else { treeBlobs := 1, treeSize := buf.length }
      (.ok (id, s), [(.tree, buf)])

/-- Embeds `Archiver.loadSubtree` (archiver.go:198): load the subtree referenced by a
node; in case of any load error, `nil` is returned — the function has no error
result at all.  `loadTree` abstracts `Repo.LoadTree`. -/
def loadSubtree (loadTree : ContentID → Except RErr RTree) (node : Option Node) :
    Option RTree :=
  match node with
  | none => none
  | some node =>
    if node.type ≠ "dir" then none
    else
      match node.subtree with
      | none => none
      | some id =>
        match loadTree id with
        | .error _ => none
        | .ok tree => some tree

/-- Modelled from the spec: the part of `restic.Snapshot` that
`loadParentTree` reads — the optional root tree ID (spec §3). -/
structure SnapshotRec where
  tree : Option ContentID := none
deriving DecidableEq, Repr

/-- Embeds `Archiver.loadParentTree` (archiver.go:694): resolve a parent snapshot id
to its root tree.  A null id, a snapshot load error, a snapshot without a tree
id, and a tree load error all yield `nil`; the function has no error result.
`loadSnapshot` abstracts `restic.LoadSnapshot`, `loadTree` abstracts
`Repo.LoadTree`. -/
def loadParentTree (loadSnapshot : ContentID → Except RErr SnapshotRec)
    (loadTree : ContentID → Except RErr RTree) (snapshotID : ContentID) :
    Option RTree :=
  if idIsNull snapshotID then none
  else
    match loadSnapshot snapshotID with
    | .error _ => none
    | .ok sn =>
      match sn.tree with
      | none => none
      | some treeID =>
        match loadTree treeID with
        | .error _ => none
        | .ok tree => some tree

/-- Observable side effects of one `Save` call: calls to `Close` with the
handle held at the call (`none` records that the Go `file` variable was nil
when `file.Close()` ran), the synchronous `CompleteItem` and `CompleteBlob`
callbacks, and the submission of the file to the `FileSaver` pool
(archiver.go:389). -/
inductive Event where
  | close (handle : Option Unit)
  | completeItem (item : String) (previous current : Option Node) (s : ItemStats)
  | completeBlob (item : String) (bytes : Nat)
  | fileSaverSubmit (snPath : String) (handle : Option Unit)
deriving DecidableEq, Repr

/-- Fields of `FutureNode` (archiver.go:296) observable to `Save`'s callers
after `wait`. -/
structure FutureNode where
  snPath : String := ""
  target : String := ""
  node : Option Node := none
  stats : ItemStats := {}
  isFile : Bool := false
deriving DecidableEq, Repr

/-- Environment of one `Save` call: the outcome of every external operation
it may perform.  `openRes` is `arch.FS.OpenFile(target, O_RDONLY|O_NOFOLLOW, 0)`
— per spec §6 an open error yields no handle; `fstatRes` is `file.Stat()`;
`lstatRes` is `arch.FS.Lstat(target)`; `sel` is `arch.Select` applied to the
absolute target and the (possibly absent) stat result; `saveDirRes` is the
outcome of the recursive `arch.SaveDir` call, given the loaded previous
subtree; `nf` is `restic.NodeFromFileInfo`; `closeRes` is the error of the
final `file.Close()`. -/
structure SaveEnv where
  absRes : Except RErr String
  openRes : Except RErr Unit
  fstatRes : Except RErr FileInfo
  lstatRes : Except RErr FileInfo
  sel : String → Option FileInfo → Bool
  loadTree : ContentID → Except RErr RTree
  saveDirRes : Option RTree → Except RErr (Node × ItemStats)
  nf : String → FileInfo → Node × Option RErr
  withAtime : Bool
  closeRes : Option RErr

/-- Lines 425-432 of `Save`: if a handle is still held, close it (an error
from `Close` is wrapped and returned); then return the assembled
`FutureNode`. -/
def saveFinish (env : SaveEnv) (fn : FutureNode) (file : Option Unit)
    (evts : List Event) : Except RErr (FutureNode × Bool) × List Event :=
  match file with
  | none => (.ok (fn, false), evts)
  | some _ =>
    match env.closeRes with
    | some e => (.error (.wrap "Close" e), evts ++ [.close (some ())])
    | none => (.ok (fn, false), evts ++ [.close (some ())])

/-- Embeds `Archiver.Save` (archiver.go:326) together with its event trace.
The control flow follows the source: `Abs`; `OpenFile` and, on success,
`file.Stat()`; the `Select` check (closing the handle if one is held); the
`ELOOP`/`ENXIO` path-error fallback to `Lstat`, any other open error being
returned wrapped as `OpenFile`; the stat-error check at archiver.go:367,
which runs `file.Close()` even when the open failed and no handle exists;
then the dispatch on the file type — regular file (previous-node reuse, or
submission to the `FileSaver` with the handle passed on), directory
(recursion via `SaveDir` on the previous subtree loaded by `loadSubtree`),
socket (excluded), default (metadata-only node) — and finally the close of a
still-held handle. -/
def Save (env : SaveEnv) (snPath target : String) (previous : Option Node) :
    Except RErr (FutureNode × Bool) × List Event :=
  let fn : FutureNode := { snPath := snPath, target := target }
  match env.absRes with
  | .error e => (.error e, [])
  | .ok abstarget =>
    let file : Option Unit := match env.openRes with | .ok _ => some () | .error _ => none
    let fi0 : Option FileInfo :=
      match env.openRes, env.fstatRes with
      | .ok _, .ok fi => some fi
      | _, _ => none
    if ¬ env.sel abstarget fi0 then
      (.ok ({}, true), if file.isSome then [.close file] else [])
    else
      let afterStat : Except (RErr × List Event) (Option Unit × FileInfo) :=
        match env.openRes with
        | .error e =>
          if isPathErrWith e [ELOOP, ENXIO] then
            match env.lstatRes with
            | .ok fi => .ok (none, fi)
            | .error e2 => .error (.wrap "Stat" e2, [.close none])
          else .error (.wrap "OpenFile" e, [])
        | .ok _ =>
          match env.fstatRes with
          | .ok fi => .ok (file, fi)
          | .error e => .error (.wrap "Stat" e, [.close file])
      match afterStat with
      | .error (e, evts) => (.error e, evts)
      | .ok (file, fi) =>
        if isRegularFile fi then
          match previous with
          | some p =>
            if fileChanged fi (some p) = false then
              (.ok ({ fn with node := some p }, false),
                [.completeItem snPath (some p) (some p) {},
                  .completeBlob snPath p.size, .close file])
            else
              saveFinish env { fn with isFile := true } none [.fileSaverSubmit snPath file]
          | none =>
            saveFinish env { fn with isFile := true } none [.fileSaverSubmit snPath file]
        else if isDir fi then
          let oldSubtree := loadSubtree env.loadTree previous
          match env.saveDirRes oldSubtree with
          | .ok (node, stats) =>
            saveFinish env { fn with node := some node, stats := stats } file
              [.completeItem (snPath ++ "/") previous (some node) stats]
          | .error e => (.error e, [.close file])
        else if fi.mode &&& ModeSocket > 0 then
          (.ok ({}, true), [])
        else
          let res := nodeFromFileInfo env.withAtime env.nf target fi
          match res.2 with
          | some e => (.error e, [.close file])
          | none => saveFinish env { fn with node := some res.1 } file []

/-- Lexical path join — the shape shared by `path.Join` (`join`,
archiver.go:467) and `fs.Join` for the cleaned paths occurring here. -/
def joinPath (a b : String) : String :=
  if a = "" then b else if a.endsWith "/" then a ++ b else a ++ "/" ++ b

/-- Embeds `Archiver.error` (archiver.go:150): when no `Error` hook is
configured or the error is nil, the error is returned unchanged; otherwise
the hook's verdict replaces it (`none` = swallow).  The hook's `os.FileInfo`
argument is not modelled. -/
def archError (hook : Option (String → RErr → Option RErr)) (item : String)
    (err : Option RErr) : Option RErr :=
  match hook, err with
  | none, e => e
  | some _, none => none
  | some f, some e => f item e

/-- Outcome, as observed by `SaveDir`/`SaveTree`, of one child `Save` call:
an immediate error, exclusion, or a future node whose `wait` yields an error
or an optional node. -/
inductive EntryOutcome where
  | err (e : RErr)
  | excluded
  | fut (errAfterWait : Option RErr) (node : Option Node)
deriving DecidableEq, Repr

/-- First loop of `SaveDir` (archiver.go:234-256): dispatch each child in
directory order; an immediate error is routed through the error hook under
the child's pathname (swallow = skip the child), exclusions are skipped, and
the futures are collected in order, as `(name, error-after-wait, node)`. -/
def collectFutures (hook : Option (String → RErr → Option RErr))
    (outcome : String → EntryOutcome) (dir : String) :
    List String → Except RErr (List (String × Option RErr × Option Node))
  | [] => .ok []
  | name :: rest =>
    match outcome name with
    | .err e =>
      match archError hook (joinPath dir name) (some e) with
      | none => collectFutures hook outcome dir rest
      | some e2 => .error e2
    | .excluded => collectFutures hook outcome dir rest
    | .fut we wn =>
      match collectFutures hook outcome dir rest with
      | .error e2 => .error e2
      | .ok futs => .ok ((name, we, wn) :: futs)

/-- Second loop of `SaveDir` (archiver.go:258-282): await each future in
order; a failed future is routed through the error hook under the child's
pathname (swallow = skip), a nil node is skipped, and surviving nodes are
inserted into the tree. -/
def waitFutures (hook : Option (String → RErr → Option RErr)) (dir : String) :
    List (String × Option RErr × Option Node) → RTree → Except RErr RTree
  | [], tree => .ok tree
  | (name, we, wn) :: rest, tree =>
    match we with
    | some e =>
      match archError hook (joinPath dir name) (some e) with
      | none => waitFutures hook dir rest tree
      | some e2 => .error e2
    | none =>
      match wn with
      | none => waitFutures hook dir rest tree
      | some n =>
        match treeInsert tree n with
        | .error e2 => .error e2
        | .ok tree2 => waitFutures hook dir rest tree2

/-- The two child loops of `SaveDir` combined: the directory's tree is built
from an empty tree by dispatching every child and then awaiting every future
in order. -/
def buildDirTree (hook : Option (String → RErr → Option RErr))
    (outcome : String → EntryOutcome) (dir : String) (names : List String) :
    Except RErr RTree :=
  match collectFutures hook outcome dir names with
  | .error e => .error e
  | .ok futs => waitFutures hook dir futs []

/-- Nodes that a list of awaited futures contributes to the tree: those whose
`wait` produced no error and a non-nil node. -/
def futNodes : List (String × Option RErr × Option Node) → List Node
  | [] => []
  | (_, none, some n) :: rest => n :: futNodes rest
  | (_, none, none) :: rest => futNodes rest
  | (_, some _, _) :: rest => futNodes rest

/-- Embeds `readdirnames` (archiver.go:634): open the directory, read all
entry names, close it, and sort ascending.  `openRes`, `readRes` and
`closeRes` abstract the three filesystem operations. -/
def readdirnames (openRes : String → Except RErr Unit)
    (readRes : String → Except RErr (List String))
    (closeRes : String → Option RErr) (dir : String) :
    Except RErr (List String) :=
  match openRes dir with
  | .error e => .error (.wrap "Open" e)
  | .ok _ =>
    match readRes dir with
    | .error e => .error (.wrap "Readdirnames" e)
    | .ok entries =>
      match closeRes dir with
      | some e => .error e
      | none => .ok (sortStrings entries)

/-- Environment of one `SaveDir` call: `nf` is `restic.NodeFromFileInfo`;
`openRes`/`readRes`/`closeRes` feed `readdirnames`; `hook` is the `Error`
hook; `outcome` is the result of the recursive `arch.Save` call on a child's
snapshot item and its previous node; `marshal` and `blobSave` feed
`saveTree`. -/
structure DirEnv where
  nf : String → FileInfo → Node × Option RErr
  withAtime : Bool
  openRes : String → Except RErr Unit
  readRes : String → Except RErr (List String)
  closeRes : String → Option RErr
  hook : Option (String → RErr → Option RErr)
  outcome : String → Option Node → EntryOutcome
  marshal : RTree → Except RErr (List Nat)
  blobSave : BlobKind → List Nat → Except RErr (ContentID × Bool)

/-- Embeds `Archiver.SaveDir` (archiver.go:215): build the directory's own
node from its `FileInfo`, read the sorted child names, run the two child
loops, store the resulting tree via `saveTree`, and return the directory
node pointing at the stored subtree together with the accumulated stats. -/
def SaveDir (env : DirEnv) (snPath : String) (fi : FileInfo) (dir : String)
    (previous : Option RTree) : Except RErr (Node × ItemStats) :=
  let res := nodeFromFileInfo env.withAtime env.nf dir fi
  match res.2 with
  | some e => .error e
  | none =>
    match readdirnames env.openRes env.readRes env.closeRes dir with
    | .error e => .error e
    | .ok names =>
      match buildDirTree env.hook
          (fun name => env.outcome (joinPath snPath name) (treeFind previous name))
          dir names with
      | .error e => .error e
      | .ok tree =>
        match (saveTree env.marshal env.blobSave tree).1 with
        | .error e => .error e
        | .ok (id, treeStats) =>
          .ok ({ res.1 with subtree := some id }, ItemStats.add {} treeStats)

/-- Modelled from the spec: the PathTree node (`archiver.Tree` from
`tree.go`, which is not in the source tree).  A node with a non-empty `path`
is a leaf carrying the filesystem path to archive; a node with children is an
intermediate (synthetic) directory whose own metadata is statted from
`fileInfoPath` (spec §3, §4.1). -/
inductive ATree where
  | mk (path : String) (fileInfoPath : String) (nodes : List (String × ATree))

/-- Leaf path of a PathTree node. -/
def ATree.path : ATree → String
  | .mk p _ _ => p

/-- Stat path for an intermediate PathTree node's own metadata. -/
def ATree.fileInfoPath : ATree → String
  | .mk _ f _ => f

/-- Children of a PathTree node, keyed by snapshot-local name. -/
def ATree.nodes : ATree → List (String × ATree)
  | .mk _ _ ns => ns

/-- Embeds `Archiver.statDir` (archiver.go:473): stat the directory with
symlinks resolved (`FS.Stat`, abstracted as `stat`); a stat error is wrapped
(as `"Lstat"`, following the source), and a mode whose type and char-device
bits are not exactly `ModeDir` is an error. -/
def statDir (stat : String → Except RErr FileInfo) (dir : String) :
    Except RErr FileInfo :=
  match stat dir with
  | .error e => .error (.wrap "Lstat" e)
  | .ok fi =>
    if fi.mode &&& (ModeType ||| ModeCharDevice) ≠ ModeDir then
      .error (.str ("path is not a directory: " ++ dir))
    else .ok fi

/-- Environment of one `SaveTree` walk: `leafOutcome` is the result of
`arch.Save` on a leaf (snapshot item, filesystem path, previous node);
`loadTree` feeds `loadSubtree`; `marshal`/`blobSave` feed `saveTree`; `stat`
feeds `statDir`; `nf` is `restic.NodeFromFileInfo`. -/
structure TreeEnv where
  hook : Option (String → RErr → Option RErr)
  leafOutcome : String → String → Option Node → EntryOutcome
  loadTree : ContentID → Except RErr RTree
  marshal : RTree → Except RErr (List Nat)
  blobSave : BlobKind → List Nat → Except RErr (ContentID × Bool)
  stat : String → Except RErr FileInfo
  nf : String → FileInfo → Node × Option RErr
  withAtime : Bool

/-- Futures loop of `SaveTree` (archiver.go:568-594): await each future,
route its error through the hook under the leaf's filesystem path, skip
missing nodes, rename each surviving node to its snapshot-local key, and
insert it.  Entries are `(key, target, error-after-wait, node)`. -/
def waitFuturesRenamed (hook : Option (String → RErr → Option RErr)) :
    List (String × String × Option RErr × Option Node) → RTree →
    Except RErr RTree
  | [], tree => .ok tree
  | (name, target, we, wn) :: rest, tree =>
    match we with
    | some e =>
      match archError hook target (some e) with
      | none => waitFuturesRenamed hook rest tree
      | some e2 => .error e2
    | none =>
      match wn with
      | none => waitFuturesRenamed hook rest tree
      | some n =>
        match treeInsert tree { n with name := name } with
        | .error e2 => .error e2
        | .ok tree2 => waitFuturesRenamed hook rest tree2

/-- Body of `SaveTree`'s intermediate-child case (archiver.go:521-564), with
the result of the recursive `SaveTree` call passed in as `subtreeRes`: store
the subtree blob via `saveTree`, require a non-empty `FileInfoPath`, stat it
as a directory (`statDir`), build the synthetic directory node from that
path's metadata, and overwrite its name with the snapshot-local child key and
its subtree with the stored tree's id. -/
def saveIntermediate (env : TreeEnv) (snPath name : String) (sub : ATree)
    (subtreeRes : Except RErr RTree) : Except RErr Node :=
  match subtreeRes with
  | .error e => .error e
  | .ok subtree =>
    match (saveTree env.marshal env.blobSave subtree).1 with
    | .error e => .error e
    | .ok (id, _nodeStats) =>
      if sub.fileInfoPath = "" then
        .error (.str ("FileInfoPath for " ++ snPath ++ "/" ++ name ++ " is empty"))
      else
        match statDir env.stat sub.fileInfoPath with
        | .error e => .error e
        | .ok fi =>
          let res := nodeFromFileInfo env.withAtime env.nf sub.fileInfoPath fi
          match res.2 with
          | some e => .error e
          | none => .ok { res.1 with name := name, subtree := some id }

mutual

/-- Embeds `Archiver.SaveTree` (archiver.go:489): walk one level of the
PathTree.  Leaves are dispatched through `Save` (abstracted as
`leafOutcome`), immediate errors routed through the hook under the leaf path,
and the futures collected; intermediate children are archived recursively and
turned into synthetic directory nodes via `saveIntermediate` and inserted at
once; finally all futures are awaited and the surviving nodes, renamed to
their snapshot-local keys, are inserted.  Go iterates `atree.Nodes` (a map)
in unspecified order; the model fixes the order of the `nodes` list. -/
def SaveTree (env : TreeEnv) (snPath : String) (atree : ATree)
    (previous : Option RTree) : Except RErr RTree :=
  match atree with
  | .mk _ _ ns =>
    match SaveTreeChildren env snPath previous ns [] [] with
    | .error e => .error e
    | .ok (tree, futs) => waitFuturesRenamed env.hook futs tree

/-- First loop of `SaveTree` over the children, accumulating the tree of
synthetic directory nodes and the list of leaf futures in iteration order. -/
def SaveTreeChildren (env : TreeEnv) (snPath : String) (previous : Option RTree) :
    List (String × ATree) → RTree →
    List (String × String × Option RErr × Option Node) →
    Except RErr (RTree × List (String × String × Option RErr × Option Node))
  | [], tree, futs => .ok (tree, futs)
  | (name, sub) :: rest, tree, futs =>
    if sub.path ≠ "" then
      match env.leafOutcome (joinPath snPath name) sub.path (treeFind previous name) with
      | .err e =>
        match archError env.hook sub.path (some e) with
        | none => SaveTreeChildren env snPath previous rest tree futs
        | some e2 => .error e2
      | .excluded => SaveTreeChildren env snPath previous rest tree futs
      | .fut we wn =>
        SaveTreeChildren env snPath previous rest tree
          (futs ++ [(name, sub.path, we, wn)])
    else
      let oldNode := treeFind previous name
      let oldSubtree := loadSubtree env.loadTree oldNode
      match saveIntermediate env snPath name sub
          (SaveTree env (joinPath snPath name) sub oldSubtree) with
      | .error e => .error e
      | .ok node =>
        match treeInsert tree node with
        | .error e => .error e
        | .ok tree2 => SaveTreeChildren env snPath previous rest tree2 futs

end

/-- Embeds `resolveRelativeTargets` (archiver.go:658): clean every target;
a target whose cleaned form still has path components is kept in its cleaned
form; one with zero components is replaced by one target per entry of that
directory (via `readdirnames`, hence in sorted order), the cleaned target
joined with the entry name.  `clean`, `join` and `comps` abstract `fs.Clean`,
`fs.Join` and `pathComponents` — the latter lives in `tree.go`, which is not
in the source tree; per spec §4.1 a cleaned target such as the current
directory reduces to zero components. -/
def resolveRelativeTargets (clean : String → String)
    (join : String → String → String) (comps : String → List String)
    (openRes : String → Except RErr Unit)
    (readRes : String → Except RErr (List String))
    (closeRes : String → Option RErr) :
    List String → Except RErr (List String)
  | [] => .ok []
  | target :: rest =>
    let target := clean target
    if (comps target).length > 0 then
      match resolveRelativeTargets clean join comps openRes readRes closeRes rest with
      | .error e => .error e
      | .ok r => .ok (target :: r)
    else
      match readdirnames openRes readRes closeRes target with
      | .error e => .error e
      | .ok entries =>
        match resolveRelativeTargets clean join comps openRes readRes closeRes rest with
        | .error e => .error e
        | .ok r => .ok (entries.map (fun name => join target name) ++ r)

/-- Environment of one `Snapshot` call around the `SaveTree` walk:
`validErr` is the result of `arch.Valid()`; `clean`/`join`/`comps` and the
directory-reading functions feed `resolveRelativeTargets`; `newTree`
abstracts `archiver.NewTree` (from `tree.go`, not in the source tree);
`tenv` drives the walk; `loadSnapshot` feeds `loadParentTree`; `flushErr`,
`saveIndexErr` and `saveSnapshotRes` are the outcomes of `Repo.Flush`,
`Repo.SaveIndex` and `Repo.SaveJSONUnpacked` on the assembled snapshot. -/
structure SnapEnv where
  validErr : Option RErr
  clean : String → String
  join : String → String → String
  comps : String → List String
  openRes : String → Except RErr Unit
  readRes : String → Except RErr (List String)
  closeRes : String → Option RErr
  newTree : List String → Except RErr ATree
  tenv : TreeEnv
  loadSnapshot : ContentID → Except RErr SnapshotRec
  flushErr : Option RErr
  saveIndexErr : Option RErr
  saveSnapshotRes : ContentID → Except RErr ContentID

/-- Embeds `Archiver.Snapshot` (archiver.go:730): validate, resolve the
targets, build the PathTree, walk it with `SaveTree` rooted at `"/"` against
the parent tree (loaded best-effort by `loadParentTree`), store the root tree
blob via `saveTree`, flush the repository, save the index, and persist the
snapshot object, returning its id.  Worker-pool startup and the snapshot
record's metadata fields are not modelled. -/
def Snapshot (env : SnapEnv) (targets : List String) (parent : ContentID) :
    Except RErr ContentID :=
  match env.validErr with
  | some e => .error e
  | none =>
    match resolveRelativeTargets env.clean env.join env.comps env.openRes
        env.readRes env.closeRes targets with
    | .error e => .error e
    | .ok cleanTargets =>
      match env.newTree cleanTargets with
      | .error e => .error e
      | .ok atree =>
        match SaveTree env.tenv "/" atree
            (loadParentTree env.loadSnapshot env.tenv.loadTree parent) with
        | .error e => .error e
        | .ok tree =>
          match (saveTree env.tenv.marshal env.tenv.blobSave tree).1 with
          | .error e => .error e
          | .ok (rootID, _stats) =>
            match env.flushErr with
            | some e => .error e
            | none =>
              match env.saveIndexErr with
              | some e => .error e
              | none =>
                match env.saveSnapshotRes rootID with
                | .error e => .error e
                | .ok id => .ok id

/-- Concrete closed `Save` environment used by witnesses and counterexamples:
`Select` accepts everything, the absolute path is `"/t"`, and the recursive
and repository operations fail (they are unreachable in the scenarios
exercised). -/
def mkEnv (openRes : Except RErr Unit) (fstatRes lstatRes : Except RErr FileInfo)
    (nf : String → FileInfo → Node × Option RErr) : SaveEnv :=
  { absRes := .ok "/t", openRes := openRes, fstatRes := fstatRes,
    lstatRes := lstatRes, sel := fun _ _ => true,
    loadTree := fun _ => .error (.base 1),
    saveDirRes := fun _ => .error (.base 1), nf := nf,
    withAtime := false, closeRes := none }

/-- Concrete child-outcome function used by witnesses: entry `"b"` fails with
`EACCES`, every other entry yields a node named after itself. -/
def outcW (j : String) : EntryOutcome :=
  if j = "b" then .err (.base EACCES) else .fut none (some { name := j })

/-- Concrete `SaveTree` environment whose leaf outcomes all fail with
`EACCES` and whose hook is absent, so leaf errors are fatal; the remaining
stages succeed. -/
def tenvErr : TreeEnv :=
  { hook := none, leafOutcome := fun _ _ _ => .err (.base EACCES),
    loadTree := fun _ => .error (.base 1), marshal := fun _ => .ok [],
    blobSave := fun _ _ => .ok (4, true), stat := fun _ => .ok { mode := ModeDir },
    nf := fun _ _ => ({}, none), withAtime := false }

/-- Concrete `SaveTree` environment in which every stage succeeds: the leaves
are excluded, so the walk yields an empty tree. -/
def tenvOk : TreeEnv :=
  { tenvErr with leafOutcome := fun _ _ _ => .excluded }

/-- Concrete `Snapshot` environment around a given walk environment:
cleaning is the identity, every target has one component, the PathTree is a
single leaf `"n"` at path `"p"`, and the repository stages succeed. -/
def snapEnv (tenv : TreeEnv) : SnapEnv :=
  { validErr := none, clean := fun s => s, join := fun a b => a ++ "/" ++ b,
    comps := fun s => [s], openRes := fun _ => .ok (),
    readRes := fun _ => .ok [], closeRes := fun _ => none,
    newTree := fun _ => .ok (.mk "" "" [("n", .mk "p" "" [])]),
    tenv := tenv, loadSnapshot := fun _ => .error (.base 1),
    flushErr := none, saveIndexErr := none,
    saveSnapshotRes := fun _ => .ok 5 }

end Restic

namespace Restic

/-- C1: the change detector reports the file unchanged (returns `false`) iff
the previous node exists, its type is `file`, the stat's modification time
equals the node's exactly (whole-nanosecond), both the stat's logical size and
its extended-stat size equal the node's recorded size, and the extended-stat
inode equals the node's inode; under any other condition it reports changed. -/
theorem fileChanged_eq_false_iff (fi : FileInfo) (node : Option Node) :
    fileChanged fi node = false ↔
      ∃ n, node = some n ∧ n.type = "file" ∧ fi.modTime = n.modTime ∧
        goUInt64 fi.size = n.size ∧ goUInt64 fi.extSize = n.size ∧
        n.inode = fi.inode := by
  cases node with
  | none => simp [fileChanged]
  | some n =>
    simp only [fileChanged, Option.some.injEq]
    constructor
    · intro h
      by_cases ht : n.type = "file"
      · by_cases hm : fi.modTime = n.modTime
        · by_cases hs : goUInt64 fi.size = n.size ∧ goUInt64 fi.extSize = n.size
          · by_cases hi : n.inode = fi.inode
            · exact ⟨n, rfl, ht, hm, hs.1, hs.2, hi⟩
            · simp [ht, hm, hs.1, hs.2, hi] at h
          · rcases Decidable.not_and_iff_or_not.mp hs with hs1 | hs2
            · simp [ht, hm, hs1] at h
            · simp [ht, hm, hs2] at h
        · simp [ht, hm] at h
      · simp [ht] at h
    · rintro ⟨m, hm, ht, hmod, hs1, hs2, hi⟩
      cases hm
      simp [ht, hmod, hs1, hs2, hi]

/-- C10: for every node built through the archiver's `nodeFromFileInfo`
(whatever the entry's type), when `WithAtime` is false the node's access time
is overwritten with the node's modification time, and the underlying access
time produced by `restic.NodeFromFileInfo` survives only when `WithAtime` is
true. -/
theorem nodeFromFileInfo_atime (nf : String → FileInfo → Node × Option RErr)
    (filename : String) (fi : FileInfo) :
    ((nodeFromFileInfo false nf filename fi).1.accessTime
        = (nodeFromFileInfo false nf filename fi).1.modTime
      ∧ (nodeFromFileInfo false nf filename fi).1
        = { (nf filename fi).1 with accessTime := (nf filename fi).1.modTime })
    ∧ (nodeFromFileInfo true nf filename fi).1
        = (nf filename fi).1 := by
  refine ⟨⟨?_, ?_⟩, ?_⟩ <;> simp [nodeFromFileInfo]

/-- C4: for every tree stored by `saveTree`, the bytes handed to the blob
store are exactly the JSON encoding of the tree followed by a single newline
byte (`10`), submitted as one single tree blob; the returned `ItemStats`
counts one tree blob of that byte length iff the blob was not already known
to the repository, and zero blobs otherwise. -/
theorem saveTree_encoding (marshal : RTree → Except RErr (List Nat))
    (blobSave : BlobKind → List Nat → Except RErr (ContentID × Bool))
    (t : RTree) (buf : List Nat) (id : ContentID) (known : Bool)
    (hm : marshal t = .ok buf)
    (hb : blobSave .tree (buf ++ [10]) = .ok (id, known)) :
    saveTree marshal blobSave t =
      (.ok (id, if known then {} else { treeBlobs := 1, treeSize := buf.length + 1 }),
        [(.tree, buf ++ [10])]) := by
  simp [saveTree, hm, hb]

/-- Witness for C4 at a concrete tree, encoder and blob store. -/
theorem saveTree_encoding_witness :
    saveTree (fun _ => .ok [123, 125]) (fun _ _ => .ok (7, false)) [] =
      (.ok (7, { treeBlobs := 1, treeSize := 3 }), [(.tree, [123, 125, 10])]) :=
  saveTree_encoding (fun _ => .ok [123, 125]) (fun _ _ => .ok (7, false))
    [] [123, 125] 7 false rfl rfl

/-- C2: for every regular-file leaf whose previous node the change detector
reports unchanged, `Save` returns the previous node verbatim as the file's
node, emits `CompleteItem` with zero `ItemStats` and `CompleteBlob` with the
previous node's size, closes the file handle, and submits nothing to the
`FileSaver` (the trace consists of exactly those three events). -/
theorem Save_unchanged_reuse (env : SaveEnv) (snPath target abstarget : String)
    (p : Node) (fi : FileInfo)
    (habs : env.absRes = .ok abstarget)
    (hopen : env.openRes = .ok ())
    (hstat : env.fstatRes = .ok fi)
    (hsel : env.sel abstarget (some fi) = true)
    (hreg : isRegularFile fi = true)
    (hunch : fileChanged fi (some p) = false) :
    Save env snPath target (some p) =
      (.ok ({ snPath := snPath, target := target, node := some p }, false),
        [.completeItem snPath (some p) (some p) {},
          .completeBlob snPath p.size, .close (some ())]) := by
  simp [Save, habs, hopen, hstat, hsel, hreg, hunch]

/-- Witness for C2 at a concrete environment and previous node. -/
theorem Save_unchanged_reuse_witness :
    Save (mkEnv (.ok ()) (.ok {}) (.error (.base 1)) (fun _ _ => ({}, none)))
        "a" "t" (some { type := "file" }) =
      (.ok ({ snPath := "a", target := "t", node := some { type := "file" } }, false),
        [.completeItem "a" (some { type := "file" }) (some { type := "file" }) {},
          .completeBlob "a" 0, .close (some ())]) :=
  Save_unchanged_reuse
    (mkEnv (.ok ()) (.ok {}) (.error (.base 1)) (fun _ _ => ({}, none)))
    "a" "t" "/t" { type := "file" } {} rfl rfl rfl rfl (by decide) (by decide)

/-- C8 (amended): processing of a leaf whose open failed.  If `Select` does
not exclude the target and the open error is an `ELOOP` or `ENXIO` path
error, `Save` falls back to `Lstat` and, when that succeeds, proceeds from
the lstat metadata without a file handle and without reporting the open
failure as an error, dispatching on the lstat result's type exactly as for an
open handle: an unchanged previous regular-file node is reused (with the
unconditional `Close` of archiver.go:383 recorded against no handle), any
other regular file is submitted to the `FileSaver` with no handle and no node
built, a directory is archived via `SaveDir`, a socket is skipped without a
node, and only the remaining types yield a node built from the lstat
metadata (a failing node construction returns that error); with any other
open error and `Select` not excluding, `Save` returns that error wrapped as
`OpenFile`; a target `Select` excludes is skipped without error, whatever
the open error was. -/
theorem Save_open_fallback (env : SaveEnv) (snPath target abstarget : String)
    (previous : Option Node) (e : RErr)
    (habs : env.absRes = .ok abstarget)
    (hopen : env.openRes = .error e) :
    (env.sel abstarget none = true → isPathErrWith e [ELOOP, ENXIO] = true →
      ∀ fi, env.lstatRes = .ok fi →
        ((∀ p, previous = some p → isRegularFile fi = true →
            fileChanged fi (some p) = false →
            Save env snPath target previous =
              (.ok ({ snPath := snPath, target := target, node := some p }, false),
                [.completeItem snPath (some p) (some p) {},
                  .completeBlob snPath p.size, .close none]))
        ∧ (previous = none → isRegularFile fi = true →
            Save env snPath target previous =
              (.ok ({ snPath := snPath, target := target, isFile := true }, false),
                [.fileSaverSubmit snPath none]))
        ∧ (∀ p, previous = some p → isRegularFile fi = true →
            fileChanged fi (some p) = true →
            Save env snPath target previous =
              (.ok ({ snPath := snPath, target := target, isFile := true }, false),
                [.fileSaverSubmit snPath none]))
        ∧ (isRegularFile fi = false → isDir fi = true →
            ∀ node stats,
              env.saveDirRes (loadSubtree env.loadTree previous) = .ok (node, stats) →
              Save env snPath target previous =
                (.ok ({ snPath := snPath, target := target, node := some node,
                        stats := stats }, false),
                  [.completeItem (snPath ++ "/") previous (some node) stats]))
        ∧ (isRegularFile fi = false → isDir fi = true →
            ∀ e2, env.saveDirRes (loadSubtree env.loadTree previous) = .error e2 →
              Save env snPath target previous = (.error e2, [.close none]))
        ∧ (isRegularFile fi = false → isDir fi = false → fi.mode &&& ModeSocket > 0 →
            Save env snPath target previous = (.ok ({}, true), []))
        ∧ (isRegularFile fi = false → isDir fi = false → fi.mode &&& ModeSocket = 0 →
            (nodeFromFileInfo env.withAtime env.nf target fi).2 = none →
            Save env snPath target previous =
              (.ok ({ snPath := snPath, target := target,
                      node := some (nodeFromFileInfo env.withAtime env.nf target fi).1 },
                false), []))
        ∧ (isRegularFile fi = false → isDir fi = false → fi.mode &&& ModeSocket = 0 →
            ∀ e2, (nodeFromFileInfo env.withAtime env.nf target fi).2 = some e2 →
              Save env snPath target previous = (.error e2, [.close none]))))
    ∧ (env.sel abstarget none = true → isPathErrWith e [ELOOP, ENXIO] = false →
        Save env snPath target previous = (.error (.wrap "OpenFile" e), []))
    ∧ (env.sel abstarget none = false →
        Save env snPath target previous = (.ok ({}, true), [])) := by
  refine ⟨?_, ?_, ?_⟩
  · intro hsel hpe fi hfi
    refine ⟨?_, ?_, ?_, ?_, ?_, ?_, ?_, ?_⟩
    · intro p hp hreg hunch
      subst hp
      simp [Save, habs, hopen, hsel, hpe, hfi, hreg, hunch]
    · intro hp hreg
      subst hp
      simp [Save, habs, hopen, hsel, hpe, hfi, hreg, saveFinish]
    · intro p hp hreg hunch
      subst hp
      simp [Save, habs, hopen, hsel, hpe, hfi, hreg, hunch, saveFinish]
    · intro hreg hdir node stats hsd
      simp [Save, habs, hopen, hsel, hpe, hfi, hreg, hdir, hsd, saveFinish]
    · intro hreg hdir e2 hsd
      simp [Save, habs, hopen, hsel, hpe, hfi, hreg, hdir, hsd]
    · intro hreg hdir hsock
      simp [Save, habs, hopen, hsel, hpe, hfi, hreg, hdir, hsock]
    · intro hreg hdir hsock hnf
      simp [Save, habs, hopen, hsel, hpe, hfi, hreg, hdir, hsock, hnf, saveFinish]
    · intro hreg hdir hsock e2 hnf
      simp [Save, habs, hopen, hsel, hpe, hfi, hreg, hdir, hsock, hnf]
  · intro hsel hpe
    simp [Save, habs, hopen, hsel, hpe]
  · intro hsel
    simp [Save, habs, hopen, hsel]

/-- Counterexample to C8 as stated, at three explicit inputs, each refuting
one universal of the claim.  (1) Open fails with an `ENXIO` path error,
`Select` accepts, the lstat fallback succeeds reporting a socket: `Save`
skips the entry and builds no node, though the claim says every successful
lstat fallback proceeds to build the node.  (2) Open fails with an `ELOOP`
path error, `Select` accepts, the lstat fallback succeeds reporting a
regular file (reachable when the symlink is replaced by a file between the
two calls): `Save` submits the file to the `FileSaver` with no handle and
builds no node from the lstat metadata.  (3) `Select` excludes the target
and open fails with an `EACCES` path error: `Save` returns excluded with no
error, though the claim says every open failure with another error code is
returned as an error. -/
theorem Save_open_fallback_counterexample :
    (Save (mkEnv (.error (.pathError ENXIO)) (.error (.base 1))
          (.ok { mode := ModeSocket }) (fun _ _ => ({}, none))) "a" "t" none
        = (.ok ({}, true), [])
      ∧ ({} : FutureNode).node = none)
    ∧ (Save (mkEnv (.error (.pathError ELOOP)) (.error (.base 1))
          (.ok {}) (fun _ _ => ({}, none))) "a" "t" none
        = (.ok ({ snPath := "a", target := "t", isFile := true }, false),
            [.fileSaverSubmit "a" none])
      ∧ ({ snPath := "a", target := "t", isFile := true } : FutureNode).node = none)
    ∧ Save { mkEnv (.error (.pathError EACCES)) (.error (.base 1))
          (.ok {}) (fun _ _ => ({}, none)) with sel := fun _ _ => false } "a" "t" none
        = (.ok ({}, true), []) :=
  ⟨⟨by rfl, rfl⟩, ⟨by rfl, rfl⟩, by rfl⟩

/-- Witness for C8 (amended) at concrete environments, one per dispatch case:
previous-node reuse with a nil-handle `Close`, `FileSaver` submission with no
previous node and with a changed previous node, directory recursion
(success and failure), socket skip, metadata node (a symlink), failing node
construction, the other-error case (`EACCES`), and the excluded case. -/
theorem Save_open_fallback_witness :
    Save (mkEnv (.error (.pathError ELOOP)) (.error (.base 1))
        (.ok {}) (fun _ _ => ({}, none))) "b" "u" (some { type := "file" })
      = (.ok ({ snPath := "b", target := "u", node := some { type := "file" } },
            false),
          [.completeItem "b" (some { type := "file" }) (some { type := "file" }) {},
            .completeBlob "b" 0, .close none])
    ∧ Save (mkEnv (.error (.pathError ELOOP)) (.error (.base 1))
        (.ok {}) (fun _ _ => ({}, none))) "b" "u" none
      = (.ok ({ snPath := "b", target := "u", isFile := true }, false),
          [.fileSaverSubmit "b" none])
    ∧ Save (mkEnv (.error (.pathError ELOOP)) (.error (.base 1))
        (.ok {}) (fun _ _ => ({}, none))) "b" "u" (some { type := "dir" })
      = (.ok ({ snPath := "b", target := "u", isFile := true }, false),
          [.fileSaverSubmit "b" none])
    ∧ Save { mkEnv (.error (.pathError ELOOP)) (.error (.base 1))
          (.ok { mode := ModeDir }) (fun _ _ => ({}, none)) with
          saveDirRes := fun _ => .ok ({ name := "dn" }, {}) } "b" "u" none
      = (.ok ({ snPath := "b", target := "u", node := some { name := "dn" } },
            false),
          [.completeItem "b/" none (some { name := "dn" }) {}])
    ∧ Save (mkEnv (.error (.pathError ELOOP)) (.error (.base 1))
        (.ok { mode := ModeDir }) (fun _ _ => ({}, none))) "b" "u" none
      = (.error (.base 1), [.close none])
    ∧ Save (mkEnv (.error (.pathError ELOOP)) (.error (.base 1))
        (.ok { mode := ModeSocket }) (fun _ _ => ({}, none))) "b" "u" none
      = (.ok ({}, true), [])
    ∧ Save (mkEnv (.error (.pathError ELOOP)) (.error (.base 1))
        (.ok { mode := ModeSymlink }) (fun _ _ => ({ name := "x" }, none))) "b" "u" none
      = (.ok ({ snPath := "b", target := "u", node := some { name := "x" } },
          false), [])
    ∧ Save (mkEnv (.error (.pathError ELOOP)) (.error (.base 1))
        (.ok { mode := ModeSymlink }) (fun _ _ => ({}, some (.base 7)))) "b" "u" none
      = (.error (.wrap "NodeFromFileInfo" (.base 7)), [.close none])
    ∧ Save (mkEnv (.error (.pathError EACCES)) (.error (.base 1))
        (.ok {}) (fun _ _ => ({}, none))) "b" "u" none
      = (.error (.wrap "OpenFile" (.pathError EACCES)), [])
    ∧ Save { mkEnv (.error (.pathError ELOOP)) (.error (.base 1))
          (.ok {}) (fun _ _ => ({}, none)) with sel := fun _ _ => false } "b" "u" none
      = (.ok ({}, true), []) :=
  ⟨(((Save_open_fallback
        (mkEnv (.error (.pathError ELOOP)) (.error (.base 1))
          (.ok {}) (fun _ _ => ({}, none)))
        "b" "u" "/t" (some { type := "file" }) (.pathError ELOOP) rfl rfl).1
      rfl (by decide) {} rfl).1 { type := "file" } rfl (by decide) (by decide)),
    (((Save_open_fallback
        (mkEnv (.error (.pathError ELOOP)) (.error (.base 1))
          (.ok {}) (fun _ _ => ({}, none)))
        "b" "u" "/t" none (.pathError ELOOP) rfl rfl).1
      rfl (by decide) {} rfl).2.1 rfl (by decide)),
    (((Save_open_fallback
        (mkEnv (.error (.pathError ELOOP)) (.error (.base 1))
          (.ok {}) (fun _ _ => ({}, none)))
        "b" "u" "/t" (some { type := "dir" }) (.pathError ELOOP) rfl rfl).1
      rfl (by decide) {} rfl).2.2.1 { type := "dir" } rfl (by decide) (by decide)),
    (((Save_open_fallback
        { mkEnv (.error (.pathError ELOOP)) (.error (.base 1))
            (.ok { mode := ModeDir }) (fun _ _ => ({}, none)) with
            saveDirRes := fun _ => .ok ({ name := "dn" }, {}) }
        "b" "u" "/t" none (.pathError ELOOP) rfl rfl).1
      rfl (by decide) { mode := ModeDir } rfl).2.2.2.1 (by decide) (by decide)
      { name := "dn" } {} rfl),
    (((Save_open_fallback
        (mkEnv (.error (.pathError ELOOP)) (.error (.base 1))
          (.ok { mode := ModeDir }) (fun _ _ => ({}, none)))
        "b" "u" "/t" none (.pathError ELOOP) rfl rfl).1
      rfl (by decide) { mode := ModeDir } rfl).2.2.2.2.1 (by decide) (by decide)
      (.base 1) rfl),
    (((Save_open_fallback
        (mkEnv (.error (.pathError ELOOP)) (.error (.base 1))
          (.ok { mode := ModeSocket }) (fun _ _ => ({}, none)))
        "b" "u" "/t" none (.pathError ELOOP) rfl rfl).1
      rfl (by decide) { mode := ModeSocket } rfl).2.2.2.2.2.1 (by decide)
      (by decide) (by decide)),
    (((Save_open_fallback
        (mkEnv (.error (.pathError ELOOP)) (.error (.base 1))
          (.ok { mode := ModeSymlink }) (fun _ _ => ({ name := "x" }, none)))
        "b" "u" "/t" none (.pathError ELOOP) rfl rfl).1
      rfl (by decide) { mode := ModeSymlink } rfl).2.2.2.2.2.2.1 (by decide)
      (by decide) (by decide) (by decide)),
    (((Save_open_fallback
        (mkEnv (.error (.pathError ELOOP)) (.error (.base 1))
          (.ok { mode := ModeSymlink }) (fun _ _ => ({}, some (.base 7)))) 
        "b" "u" "/t" none (.pathError ELOOP) rfl rfl).1
      rfl (by decide) { mode := ModeSymlink } rfl).2.2.2.2.2.2.2 (by decide)
      (by decide) (by decide) (.wrap "NodeFromFileInfo" (.base 7)) (by decide)),
    ((Save_open_fallback
        (mkEnv (.error (.pathError EACCES)) (.error (.base 1))
          (.ok {}) (fun _ _ => ({}, none)))
        "b" "u" "/t" none (.pathError EACCES) rfl rfl).2.1 rfl (by decide)),
    ((Save_open_fallback
        { mkEnv (.error (.pathError ELOOP)) (.error (.base 1))
            (.ok {}) (fun _ _ => ({}, none)) with sel := fun _ _ => false }
        "b" "u" "/t" none (.pathError ELOOP) rfl rfl).2.2 rfl)⟩

/-- C9: the code's behaviour at the failing input.  When open fails with an
`ELOOP` path error, `Select` accepts, and the lstat fallback itself fails,
`Save` returns the stat error — but its trace records a `Close` call with no
handle held: archiver.go:368 runs `file.Close()` although `file` is the nil
interface (in Go, a method call that dereferences nil and panics), which
contradicts the claim that no file-handle operation is performed on paths
where `OpenFile` returned an error. -/
theorem Save_close_on_absent_handle :
    Save (mkEnv (.error (.pathError ELOOP)) (.error (.base 1))
        (.error (.base ENOENT)) (fun _ _ => ({}, none))) "a" "t" none
      = (.error (.wrap "Stat" (.base ENOENT)), [.close none]) := by rfl

/-- C7: failures while loading the parent snapshot or a previous subtree are
never propagated: `loadSubtree` returns `nil` whenever `Repo.LoadTree` fails,
and `loadParentTree` returns `nil` whenever loading the snapshot fails, the
snapshot has no tree id, or loading the tree fails — both functions have no
error result, so archiving proceeds without reuse. -/
theorem loadParent_and_subtree_swallow_errors :
    (∀ (loadTree : ContentID → Except RErr RTree) (node : Node) (id : ContentID)
        (e : RErr), node.subtree = some id → loadTree id = .error e →
        loadSubtree loadTree (some node) = none)
    ∧ (∀ (loadSnapshot : ContentID → Except RErr SnapshotRec)
        (loadTree : ContentID → Except RErr RTree) (snapshotID : ContentID)
        (e : RErr), loadSnapshot snapshotID = .error e →
        loadParentTree loadSnapshot loadTree snapshotID = none)
    ∧ (∀ (loadSnapshot : ContentID → Except RErr SnapshotRec)
        (loadTree : ContentID → Except RErr RTree) (snapshotID : ContentID)
        (sn : SnapshotRec), loadSnapshot snapshotID = .ok sn → sn.tree = none →
        loadParentTree loadSnapshot loadTree snapshotID = none)
    ∧ (∀ (loadSnapshot : ContentID → Except RErr SnapshotRec)
        (loadTree : ContentID → Except RErr RTree) (snapshotID : ContentID)
        (sn : SnapshotRec) (treeID : ContentID) (e : RErr),
        loadSnapshot snapshotID = .ok sn → sn.tree = some treeID →
              loadTree treeID = .error e →
        loadParentTree loadSnapshot loadTree snapshotID = none) := by
  refine ⟨?_, ?_, ?_, ?_⟩
  · intro loadTree node id e hsub hload
    by_cases ht : node.type = "dir" <;> simp [loadSubtree, ht, hsub, hload]
  · intro ls lt sid e h
    by_cases hn : idIsNull sid <;> simp [loadParentTree, hn, h]
  · intro ls lt sid sn h htree
    by_cases hn : idIsNull sid <;> simp [loadParentTree, hn, h, htree]
  · intro ls lt sid sn treeID e h htree hload
    by_cases hn : idIsNull sid <;> simp [loadParentTree, hn, h, htree, hload]

/-- Witness for C7 at concrete failing repository environments. -/
theorem loadParent_and_subtree_swallow_errors_witness :
    loadSubtree (fun _ => .error (.base 5))
        (some { type := "dir", subtree := some 3 }) = none
    ∧ loadParentTree (fun _ => .error (.base 5)) (fun _ => .ok []) 1 = none
    ∧ loadParentTree (fun _ => .ok {}) (fun _ => .ok []) 1 = none
    ∧ loadParentTree (fun _ => .ok { tree := some 2 }) (fun _ => .error (.base 5)) 1
        = none :=
  ⟨loadParent_and_subtree_swallow_errors.1 (fun _ => .error (.base 5))
      { type := "dir", subtree := some 3 } 3 (.base 5) rfl rfl,
    loadParent_and_subtree_swallow_errors.2.1 (fun _ => .error (.base 5))
      (fun _ => .ok []) 1 (.base 5) rfl,
    loadParent_and_subtree_swallow_errors.2.2.1 (fun _ => .ok {})
      (fun _ => .ok []) 1 {} rfl rfl,
    loadParent_and_subtree_swallow_errors.2.2.2 (fun _ => .ok { tree := some 2 })
      (fun _ => .error (.base 5)) 1 { tree := some 2 } 2 (.base 5) rfl rfl rfl⟩

/-- Membership in a sorted insertion is membership in the original list or
equality with the inserted node. -/
theorem mem_insertNodeSorted (n x : Node) (t : List Node) :
    x ∈ insertNodeSorted n t ↔ x = n ∨ x ∈ t := by
  induction t with
  | nil => simp [insertNodeSorted]
  | cons m rest ih =>
    by_cases h : strLeb n.name m.name
    · simp [insertNodeSorted, h]
    · simp [insertNodeSorted, h, ih]
      tauto

/-- Inserting a node whose name is fresh succeeds. -/
theorem treeInsert_ok (t : RTree) (n : Node) (h : ∀ m ∈ t, m.name ≠ n.name) :
    treeInsert t n = .ok (insertNodeSorted n t) := by
  have hfalse : t.any (fun m => m.name == n.name) = false := by
    by_contra hb
    rw [Bool.not_eq_false, List.any_eq_true] at hb
    obtain ⟨m, hm, hmeq⟩ := hb
    exact h m hm (by simpa using hmeq)
  simp [treeInsert, hfalse]

/-- Awaiting futures whose errors are all swallowed and whose contributed
nodes have fresh, pairwise-distinct names succeeds, and the resulting tree
holds exactly the initial tree plus the contributed nodes. -/
theorem waitFutures_ok (hook : Option (String → RErr → Option RErr)) (dir : String)
    (futs : List (String × Option RErr × Option Node)) :
    ∀ tree : RTree,
    (∀ p ∈ futs, ∀ e, p.2.1 = some e →
        archError hook (joinPath dir p.1) (some e) = none) →
    ((futNodes futs).map Node.name).Nodup →
    (∀ n ∈ futNodes futs, ∀ m ∈ tree, m.name ≠ n.name) →
    ∃ t, waitFutures hook dir futs tree = .ok t ∧
      ∀ x, x ∈ t ↔ x ∈ tree ∨ x ∈ futNodes futs := by
  induction futs with
  | nil =>
    intro tree _ _ _
    exact ⟨tree, rfl, by simp [futNodes]⟩
  | cons p rest ih =>
    intro tree hskip hnodup hdisj
    obtain ⟨name, we, wn⟩ := p
    cases we with
    | some e =>
      have hsw : archError hook (joinPath dir name) (some e) = none :=
        hskip (name, some e, wn) (by simp) e rfl
      have hfn : futNodes ((name, some e, wn) :: rest) = futNodes rest := by
        simp [futNodes]
      rw [hfn] at hnodup hdisj
      obtain ⟨t, ht, hmem⟩ :=
        ih tree (fun q hq e2 he2 => hskip q (List.mem_cons_of_mem _ hq) e2 he2)
          hnodup hdisj
      refine ⟨t, by simpa [waitFutures, hsw] using ht, ?_⟩
      intro x
      rw [hfn]
      exact hmem x
    | none =>
      cases wn with
      | none =>
        have hfn : futNodes ((name, none, none) :: rest) = futNodes rest := by
          simp [futNodes]
        rw [hfn] at hnodup hdisj
        obtain ⟨t, ht, hmem⟩ :=
          ih tree (fun q hq e2 he2 => hskip q (List.mem_cons_of_mem _ hq) e2 he2)
            hnodup hdisj
        refine ⟨t, by simpa [waitFutures] using ht, ?_⟩
        intro x
        rw [hfn]
        exact hmem x
      | some n =>
        have hfn : futNodes ((name, none, some n) :: rest) = n :: futNodes rest := by
          simp [futNodes]
        rw [hfn] at hnodup hdisj
        have hins : treeInsert tree n = .ok (insertNodeSorted n tree) :=
          treeInsert_ok tree n (fun m hm => hdisj n (by simp) m hm)
        rw [List.map_cons, List.nodup_cons] at hnodup
        have hnotin : n.name ∉ (futNodes rest).map Node.name := hnodup.1
        obtain ⟨t, ht, hmem⟩ :=
          ih (insertNodeSorted n tree)
            (fun q hq e2 he2 => hskip q (List.mem_cons_of_mem _ hq) e2 he2)
            hnodup.2
            (by
              intro n2 hn2 m hm
              rcases (mem_insertNodeSorted n m tree).mp hm with hmn | hmt
              · subst hmn
                intro hcontra
                exact hnotin (hcontra ▸ List.mem_map_of_mem Node.name hn2)
              · exact hdisj n2 (List.mem_cons_of_mem _ hn2) m hmt)
        refine ⟨t, by simpa [waitFutures, hins] using ht, ?_⟩
        intro x
        rw [hfn, hmem x, mem_insertNodeSorted]
        simp only [List.mem_cons]
        tauto

/-- Dispatching children where entry `k`'s immediate error is swallowed and
every other entry yields a waiting future collects exactly the futures of the
other entries, in order. -/
theorem collectFutures_swallow_err (hook : Option (String → RErr → Option RErr))
    (outcome : String → EntryOutcome) (dir k : String) (e : RErr)
    (nodes : String → Node) (names : List String)
    (houtk : outcome k = .err e)
    (hsw : archError hook (joinPath dir k) (some e) = none)
    (hothers : ∀ j ∈ names, j ≠ k → outcome j = .fut none (some (nodes j))) :
    collectFutures hook outcome dir names =
      .ok ((names.filter (fun j => j ≠ k)).map
        (fun j => (j, (none : Option RErr), some (nodes j)))) := by
  induction names with
  | nil => rfl
  | cons j rest ih =>
    have ihr := ih (fun j2 hj2 hne => hothers j2 (List.mem_cons_of_mem _ hj2) hne)
    by_cases hj : j = k
    · subst hj
      simp [collectFutures, houtk, hsw, ihr, List.filter_cons]
    · have hout := hothers j (by simp) hj
      simp [collectFutures, hout, ihr, List.filter_cons, hj]

/-- Dispatching children where entry `k` yields a future that will fail and
every other entry yields a waiting future collects all futures in order. -/
theorem collectFutures_swallow_fut (hook : Option (String → RErr → Option RErr))
    (outcome : String → EntryOutcome) (dir k : String) (e : RErr)
    (wn : Option Node) (nodes : String → Node) (names : List String)
    (houtk : outcome k = .fut (some e) wn)
    (hothers : ∀ j ∈ names, j ≠ k → outcome j = .fut none (some (nodes j))) :
    collectFutures hook outcome dir names =
      .ok (names.map (fun j =>
        if j = k then (k, some e, wn)
        else (j, (none : Option RErr), some (nodes j)))) := by
  induction names with
  | nil => rfl
  | cons j rest ih =>
    have ihr := ih (fun j2 hj2 hne => hothers j2 (List.mem_cons_of_mem _ hj2) hne)
    by_cases hj : j = k
    · subst hj
      simp [collectFutures, houtk, ihr]
    · have hout := hothers j (by simp) hj
      simp [collectFutures, hout, ihr, hj]

/-- The first entry whose immediate error the hook does not swallow aborts
the dispatch loop with the hook's verdict. -/
theorem collectFutures_first_err (hook : Option (String → RErr → Option RErr))
    (outcome : String → EntryOutcome) (dir : String) (pre : List String)
    (k : String) (post : List String) (e e2 : RErr)
    (hpre : ∀ j ∈ pre, ∀ e3, outcome j = .err e3 →
        archError hook (joinPath dir j) (some e3) = none)
    (houtk : outcome k = .err e)
    (hgate : archError hook (joinPath dir k) (some e) = some e2) :
    collectFutures hook outcome dir (pre ++ k :: post) = .error e2 := by
  induction pre with
  | nil => simp [collectFutures, houtk, hgate]
  | cons j rest ih =>
    have ihr := ih (fun j2 hj2 e3 h3 => hpre j2 (List.mem_cons_of_mem _ hj2) e3 h3)
    cases houtj : outcome j with
    | err e3 =>
      have := hpre j (by simp) e3 houtj
      simp [collectFutures, houtj, this, ihr]
    | excluded => simp [collectFutures, houtj, ihr]
    | fut we wn => simp [collectFutures, houtj, ihr]

/-- Futures of kept-only entries contribute exactly their nodes. -/
theorem futNodes_map_keep (nodes : String → Node) (l : List String) :
    futNodes (l.map (fun j => (j, (none : Option RErr), some (nodes j))))
      = l.map nodes := by
  induction l with
  | nil => rfl
  | cons j rest ih => simp [futNodes, ih]

/-- Futures where entry `k` carries an error contribute the nodes of the
other entries. -/
theorem futNodes_map_swallowed (k : String) (e : RErr) (wn : Option Node)
    (nodes : String → Node) (l : List String) :
    futNodes (l.map (fun j =>
        if j = k then (k, some e, wn)
        else (j, (none : Option RErr), some (nodes j))))
      = (l.filter (fun j => j ≠ k)).map nodes := by
  induction l with
  | nil => rfl
  | cons j rest ih =>
    by_cases hj : j = k
    · subst hj
      simp [futNodes, ih, List.filter_cons]
    · simp [futNodes, ih, List.filter_cons, hj]


/-- C3: per-entry errors and the error gate in the `SaveDir` child loops and
in `Snapshot`.  (i) When the hook swallows entry `k`'s error — an immediate
`Save` error or a failed future alike — exactly that entry is absent from the
directory's tree, every other entry's node is present, and the walk over the
children succeeds.  (ii) The first entry whose immediate error the hook does
not swallow (with no hook, `archError` returns every error unchanged) aborts
the walk with the gate's verdict.  (iii) `Snapshot` propagates a `SaveTree`
error unchanged as its result, and returns the stored snapshot id when every
stage succeeds. -/
theorem errorGate_partial_progress :
    (∀ (hook : Option (String → RErr → Option RErr))
        (outcome : String → EntryOutcome) (dir k : String) (e : RErr)
        (nodes : String → Node) (names : List String),
      (outcome k = .err e ∨ ∃ wn, outcome k = .fut (some e) wn) →
      archError hook (joinPath dir k) (some e) = none →
      (∀ j ∈ names, j ≠ k → outcome j = .fut none (some (nodes j))) →
      (∀ j ∈ names, (nodes j).name = j) →
      names.Nodup →
      ∃ t, buildDirTree hook outcome dir names = .ok t ∧
        ∀ x, x ∈ t ↔ ∃ j ∈ names, j ≠ k ∧ x = nodes j)
    ∧ (∀ (hook : Option (String → RErr → Option RErr))
        (outcome : String → EntryOutcome) (dir : String) (pre : List String)
        (k : String) (post : List String) (e e2 : RErr),
      (∀ j ∈ pre, ∀ e3, outcome j = .err e3 →
          archError hook (joinPath dir j) (some e3) = none) →
      outcome k = .err e →
      archError hook (joinPath dir k) (some e) = some e2 →
      buildDirTree hook outcome dir (pre ++ k :: post) = .error e2)
    ∧ (∀ (env : SnapEnv) (targets : List String) (parent : ContentID)
        (cleanTargets : List String) (atree : ATree) (e : RErr),
      env.validErr = none →
      resolveRelativeTargets env.clean env.join env.comps env.openRes
        env.readRes env.closeRes targets = .ok cleanTargets →
      env.newTree cleanTargets = .ok atree →
      SaveTree env.tenv "/" atree
        (loadParentTree env.loadSnapshot env.tenv.loadTree parent) = .error e →
      Snapshot env targets parent = .error e)
    ∧ (∀ (env : SnapEnv) (targets : List String) (parent : ContentID)
        (cleanTargets : List String) (atree : ATree) (tree : RTree)
        (rootID : ContentID) (stats : ItemStats) (id : ContentID),
      env.validErr = none →
      resolveRelativeTargets env.clean env.join env.comps env.openRes
        env.readRes env.closeRes targets = .ok cleanTargets →
      env.newTree cleanTargets = .ok atree →
      SaveTree env.tenv "/" atree
        (loadParentTree env.loadSnapshot env.tenv.loadTree parent) = .ok tree →
      (saveTree env.tenv.marshal env.tenv.blobSave tree).1 = .ok (rootID, stats) →
      env.flushErr = none → env.saveIndexErr = none →
      env.saveSnapshotRes rootID = .ok id →
      Snapshot env targets parent = .ok id) := by
  refine ⟨?_, ?_, ?_, ?_⟩
  · intro hook outcome dir k e nodes names hvar hsw hothers hname hnodup
    have hmemF : ∀ x : Node,
        x ∈ (names.filter (fun j => j ≠ k)).map nodes ↔
          ∃ j ∈ names, j ≠ k ∧ x = nodes j := by
      intro x
      simp only [List.mem_map, List.mem_filter, decide_not, Bool.not_eq_eq_eq_not,
        Bool.not_true, decide_eq_false_iff_not]
      constructor
      · rintro ⟨j, ⟨hj, hjk⟩, rfl⟩
        exact ⟨j, hj, hjk, rfl⟩
      · rintro ⟨j, hj, hjk, rfl⟩
        exact ⟨j, ⟨hj, hjk⟩, rfl⟩
    have hnodupF : (((names.filter (fun j => j ≠ k)).map nodes).map Node.name).Nodup := by
      rw [List.map_map]
      have heq : (names.filter (fun j => j ≠ k)).map (Node.name ∘ nodes)
          = (names.filter (fun j => j ≠ k)).map id := by
        apply List.map_congr_left
        intro j hj
        exact hname j (List.mem_of_mem_filter hj)
      rw [heq, List.map_id]
      exact hnodup.filter _
    rcases hvar with herr | ⟨wn, hfutk⟩
    · have hcf := collectFutures_swallow_err hook outcome dir k e nodes names
        herr hsw hothers
      have hfut := futNodes_map_keep nodes (names.filter (fun j => j ≠ k))
      obtain ⟨t, ht, hmem⟩ := waitFutures_ok hook dir
        ((names.filter (fun j => j ≠ k)).map
          (fun j => (j, (none : Option RErr), some (nodes j)))) []
        (by
          intro p hp e2 hpe
          obtain ⟨j, hj, rfl⟩ := List.mem_map.mp hp
          simp at hpe)
        (by rw [hfut]; exact hnodupF)
        (by intro n hn m hm; simp at hm)
      refine ⟨t, by simpa [buildDirTree, hcf] using ht, ?_⟩
      intro x
      rw [hmem x, hfut]
      simp only [List.not_mem_nil, false_or]
      exact hmemF x
    · have hcf := collectFutures_swallow_fut hook outcome dir k e wn nodes names
        hfutk hothers
      have hfut := futNodes_map_swallowed k e wn nodes names
      obtain ⟨t, ht, hmem⟩ := waitFutures_ok hook dir
        (names.map (fun j =>
          if j = k then (k, some e, wn)
          else (j, (none : Option RErr), some (nodes j)))) []
        (by
          intro p hp e2 hpe
          obtain ⟨j, hj, rfl⟩ := List.mem_map.mp hp
          by_cases hjk : j = k
          · simp only [hjk, if_pos] at hpe ⊢
            obtain rfl : e = e2 := by simpa using hpe
            exact hsw
          · simp [hjk] at hpe)
        (by rw [hfut]; exact hnodupF)
        (by intro n hn m hm; simp at hm)
      refine ⟨t, by simpa [buildDirTree, hcf] using ht, ?_⟩
      intro x
      rw [hmem x, hfut]
      simp only [List.not_mem_nil, false_or]
      exact hmemF x
  · intro hook outcome dir pre k post e e2 hpre houtk hgate
    have hcf := collectFutures_first_err hook outcome dir pre k post e e2
      hpre houtk hgate
    simp [buildDirTree, hcf]
  · intro env targets parent cleanTargets atree e hvalid hres hnew hsave
    simp [Snapshot, hvalid, hres, hnew, hsave]
  · intro env targets parent cleanTargets atree tree rootID stats id hvalid hres
      hnew hsave hblob hflush hidx hsnap
    simp [Snapshot, hvalid, hres, hnew, hsave, hblob, hflush, hidx, hsnap]

/-- Witness for C3 at concrete hooks, outcomes and environments: a swallowing
hook keeps the siblings of the failing entry `"b"`; with no hook the same
error aborts the walk; a fatal leaf error surfaces as the `Snapshot` result;
and an error-free run returns the stored snapshot id. -/
theorem errorGate_partial_progress_witness :
    (∃ t, buildDirTree (some (fun _ _ => none)) outcW "d" ["a", "b", "c"] = .ok t ∧
      ∀ x, x ∈ t ↔ ∃ j ∈ ["a", "b", "c"], j ≠ "b" ∧ x = ({ name := j } : Node))
    ∧ buildDirTree none outcW "d" ["a", "b", "c"] = .error (.base EACCES)
    ∧ Snapshot (snapEnv tenvErr) ["x"] 0 = .error (.base EACCES)
    ∧ Snapshot (snapEnv tenvOk) ["x"] 0 = .ok 5 :=
  ⟨errorGate_partial_progress.1 (some (fun _ _ => none)) outcW "d" "b"
      (.base EACCES) (fun j => { name := j }) ["a", "b", "c"]
      (Or.inl (by decide)) rfl (by decide) (by decide) (by decide),
    errorGate_partial_progress.2.1 none outcW "d" ["a"] "b" ["c"]
      (.base EACCES) (.base EACCES)
      (by
        intro j hj e3 h3
        simp only [List.mem_singleton] at hj
        subst hj
        simp [outcW] at h3)
      (by decide) rfl,
    errorGate_partial_progress.2.2.1 (snapEnv tenvErr) ["x"] 0 ["x"]
      (.mk "" "" [("n", .mk "p" "" [])]) (.base EACCES) rfl rfl rfl rfl,
    errorGate_partial_progress.2.2.2 (snapEnv tenvOk) ["x"] 0 ["x"]
      (.mk "" "" [("n", .mk "p" "" [])]) [] 4 {} 5 rfl rfl rfl rfl rfl rfl rfl
      rfl⟩

/-- Lexicographic code-point comparison is total. -/
theorem goStrLe_total : ∀ x y : List Char, goStrLe x y = true ∨ goStrLe y x = true := by
  intro x
  induction x with
  | nil => intro y; left; rfl
  | cons c cs ih =>
    intro y
    cases y with
    | nil => right; rfl
    | cons d ds =>
      by_cases h1 : c.toNat < d.toNat
      · left; simp [goStrLe, h1]
      · by_cases h2 : d.toNat < c.toNat
        · right; simp [goStrLe, h2]
        · rcases ih ds with h | h
          · left; simp [goStrLe, h1, h2, h]
          · right; simp [goStrLe, h1, h2, h]

/-- Lexicographic code-point comparison is transitive. -/
theorem goStrLe_trans : ∀ x y z : List Char, goStrLe x y = true →
    goStrLe y z = true → goStrLe x z = true := by
  intro x
  induction x with
  | nil => intro y z _ _; rfl
  | cons c cs ih =>
    intro y z hxy hyz
    cases y with
    | nil => simp [goStrLe] at hxy
    | cons d ds =>
      cases z with
      | nil => simp [goStrLe] at hyz
      | cons e es =>
        simp only [goStrLe] at hxy hyz ⊢
        by_cases h1 : c.toNat < d.toNat
        · by_cases h2 : d.toNat < e.toNat
          · rw [if_pos (Nat.lt_trans h1 h2)]
          · by_cases h2b : e.toNat < d.toNat
            · rw [if_neg h2, if_pos h2b] at hyz
              exact absurd hyz (by simp)
            · rw [if_pos (show c.toNat < e.toNat by omega)]
        · by_cases h1b : d.toNat < c.toNat
          · rw [if_neg h1, if_pos h1b] at hxy
            exact absurd hxy (by simp)
          · by_cases h2 : d.toNat < e.toNat
            · rw [if_pos (show c.toNat < e.toNat by omega)]
            · by_cases h2b : e.toNat < d.toNat
              · rw [if_neg h2, if_pos h2b] at hyz
                exact absurd hyz (by simp)
              · rw [if_neg h1, if_neg h1b] at hxy
                rw [if_neg h2, if_neg h2b] at hyz
                rw [if_neg (show ¬ c.toNat < e.toNat by omega),
                  if_neg (show ¬ e.toNat < c.toNat by omega)]
                exact ih ds es hxy hyz

/-- Totality of the bytewise string order. -/
theorem strLeb_total (a b : String) : strLeb a b = true ∨ strLeb b a = true :=
  goStrLe_total a.data b.data

/-- Transitivity of the bytewise string order. -/
theorem strLeb_trans (a b c : String) (h1 : strLeb a b = true)
    (h2 : strLeb b c = true) : strLeb a c = true :=
  goStrLe_trans a.data b.data c.data h1 h2

/-- Membership in an insertion is membership or equality with the insertee. -/
theorem mem_insertSorted (a x : String) (l : List String) :
    x ∈ insertSorted a l ↔ x = a ∨ x ∈ l := by
  induction l with
  | nil => simp [insertSorted]
  | cons b rest ih =>
    by_cases h : strLeb a b
    · simp [insertSorted, h]
    · simp [insertSorted, h, ih]
      tauto

/-- Insertion preserves sortedness under the bytewise order. -/
theorem sorted_insertSorted (a : String) (l : List String)
    (hl : l.Sorted (fun x y => strLeb x y = true)) :
    (insertSorted a l).Sorted (fun x y => strLeb x y = true) := by
  induction l with
  | nil => simp [insertSorted]
  | cons b rest ih =>
    rw [List.sorted_cons] at hl
    by_cases h : strLeb a b
    · simp only [insertSorted, if_pos h]
      rw [List.sorted_cons]
      constructor
      · intro x hx
        rcases List.mem_cons.mp hx with rfl | hx
        · exact h
        · exact strLeb_trans a b x h (hl.1 x hx)
      · rw [List.sorted_cons]
        exact hl
    · simp only [insertSorted, if_neg h]
      have hba : strLeb b a = true := by
        rcases strLeb_total a b with hab | hba
        · exact absurd hab h
        · exact hba
      rw [List.sorted_cons]
      constructor
      · intro x hx
        rcases (mem_insertSorted a x rest).mp hx with rfl | hx
        · exact hba
        · exact hl.1 x hx
      · exact ih hl.2

/-- The result of `sortStrings` is sorted under the bytewise order. -/
theorem sorted_sortStrings (l : List String) :
    (sortStrings l).Sorted (fun x y => strLeb x y = true) := by
  induction l with
  | nil => simp [sortStrings]
  | cons a rest ih => exact sorted_insertSorted a _ ih

/-- C5: `resolveRelativeTargets` cleans every target; a target whose cleaned
form has zero path components is replaced by one target per entry of that
directory — the cleaned target joined with the entry name, in ascending
(sorted) entry order — and every other target is emitted in its cleaned form;
the result is the in-order concatenation of each target's contribution, so
relative target order is preserved. -/
theorem resolveRelativeTargets_spec (clean : String → String)
    (join : String → String → String) (comps : String → List String)
    (openRes : String → Except RErr Unit)
    (readRes : String → Except RErr (List String))
    (closeRes : String → Option RErr) (entries : String → List String)
    (targets : List String)
    (h : ∀ t ∈ targets, (comps (clean t)).length = 0 →
        openRes (clean t) = .ok () ∧ readRes (clean t) = .ok (entries (clean t)) ∧
        closeRes (clean t) = none) :
    resolveRelativeTargets clean join comps openRes readRes closeRes targets =
      .ok (targets.flatMap (fun t =>
        if (comps (clean t)).length > 0 then [clean t]
        else (sortStrings (entries (clean t))).map (fun nm => join (clean t) nm)))
    ∧ ∀ d, (sortStrings d).Sorted (fun a b => strLeb a b = true) := by
  constructor
  · induction targets with
    | nil => rfl
    | cons t rest ih =>
      have ihr := ih (fun t2 ht2 => h t2 (List.mem_cons_of_mem _ ht2))
      by_cases hc : (comps (clean t)).length > 0
      · simp only [resolveRelativeTargets, hc, if_pos, ihr, List.flatMap_cons]
        rfl
      · have hlen : (comps (clean t)).length = 0 := Nat.eq_zero_of_not_pos hc
        obtain ⟨ho, hr, hcl⟩ := h t (by simp) hlen
        simp only [resolveRelativeTargets, hc, if_neg, readdirnames, ho, hr, hcl,
          ihr, List.flatMap_cons]
        rfl
  · intro d
    exact sorted_sortStrings d

/-- Witness for C5: targets `[".", "x"]`, where `"."` cleans to zero path
components and its directory holds the entries `"b"` and `"a"`. -/
theorem resolveRelativeTargets_spec_witness :
    resolveRelativeTargets (fun s => s) (fun a b => a ++ "/" ++ b)
        (fun s => if s = "." then [] else [s]) (fun _ => .ok ())
        (fun _ => .ok ["b", "a"]) (fun _ => none) [".", "x"] =
      .ok ["./a", "./b", "x"]
    ∧ (sortStrings ["b", "a"]).Sorted (fun a b => strLeb a b = true) := by
  have h := resolveRelativeTargets_spec (fun s => s) (fun a b => a ++ "/" ++ b)
    (fun s => if s = "." then [] else [s]) (fun _ => .ok ())
    (fun _ => .ok ["b", "a"]) (fun _ => none) (fun _ => ["b", "a"]) [".", "x"]
    (by intro t ht hlen; exact ⟨rfl, rfl, rfl⟩)
  exact ⟨h.1.trans rfl, h.2 ["b", "a"]⟩

/-- C6: for an intermediate (non-leaf) PathTree child, archival fails unless
`FileInfoPath` is non-empty and a symlink-resolving stat of it reports a
directory; on success the synthetic directory node is built from that path's
metadata, its `Name` is the snapshot-local child key and its `Subtree` the
stored subtree id.  The last conjunct ties this to `SaveTree`: a tree whose
single child is an intermediate node produces exactly that synthetic node (or
fails with the same error). -/
theorem SaveTree_intermediate_requires_dir (env : TreeEnv) (snPath name : String)
    (sub : ATree) (subtree : RTree) :
    (∀ node, saveIntermediate env snPath name sub (.ok subtree) = .ok node →
      sub.fileInfoPath ≠ "" ∧
      ∃ fi id stats, env.stat sub.fileInfoPath = .ok fi ∧
        fi.mode &&& (ModeType ||| ModeCharDevice) = ModeDir ∧
        (saveTree env.marshal env.blobSave subtree).1 = .ok (id, stats) ∧
        node = { (nodeFromFileInfo env.withAtime env.nf sub.fileInfoPath fi).1 with
                  name := name, subtree := some id })
    ∧ (∀ id stats, (saveTree env.marshal env.blobSave subtree).1 = .ok (id, stats) →
        sub.fileInfoPath = "" →
        saveIntermediate env snPath name sub (.ok subtree) =
          .error (.str ("FileInfoPath for " ++ snPath ++ "/" ++ name ++ " is empty")))
    ∧ (∀ fi id stats, (saveTree env.marshal env.blobSave subtree).1 = .ok (id, stats) →
        sub.fileInfoPath ≠ "" → env.stat sub.fileInfoPath = .ok fi →
        fi.mode &&& (ModeType ||| ModeCharDevice) ≠ ModeDir →
        saveIntermediate env snPath name sub (.ok subtree) =
          .error (.str ("path is not a directory: " ++ sub.fileInfoPath)))
    ∧ (∀ e id stats, (saveTree env.marshal env.blobSave subtree).1 = .ok (id, stats) →
        sub.fileInfoPath ≠ "" → env.stat sub.fileInfoPath = .error e →
        saveIntermediate env snPath name sub (.ok subtree) = .error (.wrap "Lstat" e))
    ∧ (sub.path = "" → ∀ (p0 f0 : String) (previous : Option RTree),
        SaveTree env snPath (.mk p0 f0 [(name, sub)]) previous =
          (saveIntermediate env snPath name sub
            (SaveTree env (joinPath snPath name) sub
              (loadSubtree env.loadTree (treeFind previous name)))).map
            (fun node => [node])) := by
  refine ⟨?_, ?_, ?_, ?_, ?_⟩
  · intro node hok
    simp only [saveIntermediate] at hok
    cases hblob : (saveTree env.marshal env.blobSave subtree).1 with
    | error e =>
      simp only [hblob] at hok
      exact absurd hok (by simp)
    | ok r =>
      obtain ⟨id, stats⟩ := r
      simp only [hblob] at hok
      by_cases hfip : sub.fileInfoPath = ""
      · rw [if_pos hfip] at hok
        exact absurd hok (by simp)
      · rw [if_neg hfip] at hok
        refine ⟨hfip, ?_⟩
        cases hstat : env.stat sub.fileInfoPath with
        | error e => simp [statDir, hstat] at hok
        | ok fi =>
          by_cases hmode : fi.mode &&& (ModeType ||| ModeCharDevice) ≠ ModeDir
          · simp [statDir, hstat, hmode] at hok
          · rw [Decidable.not_not] at hmode
            refine ⟨fi, id, stats, rfl, hmode, rfl, ?_⟩
            simp only [statDir, hstat, hmode, ne_eq, not_true_eq_false,
              if_false, ite_false] at hok
            cases hnf : (nodeFromFileInfo env.withAtime env.nf sub.fileInfoPath fi).2 with
            | some e =>
              simp only [hnf] at hok
              exact absurd hok (by simp)
            | none =>
              simp only [hnf] at hok
              simpa using hok.symm
  · intro id stats hblob hfip
    simp [saveIntermediate, hblob, hfip]
  · intro fi id stats hblob hfip hstat hmode
    simp [saveIntermediate, hblob, hfip, statDir, hstat, hmode]
  · intro e id stats hblob hfip hstat
    simp [saveIntermediate, hblob, hfip, statDir, hstat]
  · intro hleaf p0 f0 previous
    obtain ⟨sp, sf, sn⟩ := sub
    simp only [ATree.path] at hleaf
    subst hleaf
    show (match (match saveIntermediate env snPath name (ATree.mk "" sf sn)
          (SaveTree env (joinPath snPath name) (ATree.mk "" sf sn)
            (loadSubtree env.loadTree (treeFind previous name))) with
        | Except.error e =>
          (Except.error e :
            Except RErr (RTree × List (String × String × Option RErr × Option Node)))
        | Except.ok node =>
          match treeInsert [] node with
          | Except.error e => Except.error e
          | Except.ok tree2 => Except.ok (tree2, [])) with
      | Except.error e => Except.error e
      | Except.ok (tree, futs) => waitFuturesRenamed env.hook futs tree) = _
    cases hsi : saveIntermediate env snPath name (ATree.mk "" sf sn)
        (SaveTree env (joinPath snPath name) (ATree.mk "" sf sn)
          (loadSubtree env.loadTree (treeFind previous name))) with
    | error e => rfl
    | ok node => rfl

/-- Witness for C6 at a concrete walk environment: a successful intermediate
child, an empty `FileInfoPath` failing, and the `SaveTree` tie-in for an
intermediate-only tree. -/
theorem SaveTree_intermediate_requires_dir_witness :
    ((.mk "" "/d" [] : ATree).fileInfoPath ≠ "" ∧
      ∃ fi id stats, tenvOk.stat "/d" = .ok fi ∧
        fi.mode &&& (ModeType ||| ModeCharDevice) = ModeDir ∧
        (saveTree tenvOk.marshal tenvOk.blobSave []).1 = .ok (id, stats) ∧
        ({ name := "n", subtree := some 4 } : Node) =
          { (nodeFromFileInfo tenvOk.withAtime tenvOk.nf "/d" fi).1 with
              name := "n", subtree := some id })
    ∧ saveIntermediate tenvOk "/s" "n" (.mk "" "" []) (.ok []) =
        .error (.str "FileInfoPath for /s/n is empty")
    ∧ SaveTree tenvOk "/s" (.mk "" "" [("n", .mk "" "/d" [])]) none =
        .ok [{ name := "n", subtree := some 4 }] := by
  refine ⟨?_, ?_, ?_⟩
  · exact (SaveTree_intermediate_requires_dir tenvOk "/s" "n" (.mk "" "/d" []) []).1
      { name := "n", subtree := some 4 } rfl
  · exact (SaveTree_intermediate_requires_dir tenvOk "/s" "n" (.mk "" "" []) []).2.1
      4 {} rfl rfl
  · have h := (SaveTree_intermediate_requires_dir tenvOk "/s" "n"
      (.mk "" "/d" []) []).2.2.2.2 rfl "" "" none
    rw [h]
    rfl

end Restic
